import Mathlib

/-!
# A verification model of the go-scraper site crawler

This file gives a shallow embedding of the core of the `go-scraper`
repository (package `main`): the URL data model and normalization helpers
(`ResolveAndCleanURL`, `cleanPath` with Go's `path.Clean` and
`net/url` reference resolution), the robots policy engine
(`RobotsChecker`), and the crawl orchestration
(`AddURLToCrawlQueue`, `AddURLToPostProcessQueue`, `CrawlPage`,
`CrawlFromSiteMap`, `Crawl`, `NewSiteCrawler`).

External I/O collaborators (page fetching, HTML link extraction,
href parsing) are passed in as oracle functions, mirroring how the Go
code calls them; their outcomes are the `Except` results the Go code
branches on.  Concurrency is modelled by a serialized step relation:
the dedup ledger is a `sync.Map` whose `LoadOrStore` is atomic, so any
concurrent execution linearizes to a sequence of admission steps, and
worker-pool activity is a sequence of take-task/run-task steps.
-/

namespace GoScraper

/-! ## URL data model

Mirrors the subset of Go's `url.URL` the crawler uses: scheme, host,
path, raw query and fragment (the crawler never uses `Opaque` or
`User`).  `render` mirrors `url.URL.String()` on this subset. -/

structure URL where
  scheme : String
  host : String
  path : String
  rawQuery : String
  fragment : String
deriving DecidableEq, Repr

/-- Model of Go `url.URL.String()` restricted to the fields carried by
`URL` (no user info, no opaque part, no forced query). -/
def URL.render (u : URL) : String :=
  (if u.scheme = "" then "" else u.scheme ++ ":") ++
  (if u.scheme = "" ∧ u.host = "" then "" else "//" ++ u.host) ++
  (if u.path ≠ "" ∧ u.path.data.head? ≠ some '/' ∧ u.host ≠ "" then "/" else "") ++
  u.path ++
  (if u.rawQuery = "" then "" else "?" ++ u.rawQuery) ++
  (if u.fragment = "" then "" else "#" ++ u.fragment)

/-! ### Character-list string utilities

The embedding computes on `List Char` (via `String.data`) so that all
definitions reduce by ordinary structural recursion. -/

/-- ASCII whitespace, the relevant subset of `strings.TrimSpace`. -/
def wsChar (c : Char) : Bool :=
  c = ' ' ∨ c = '\t' ∨ c = '\n' ∨ c = '\r'

/-- Trim leading and trailing whitespace. -/
def trimL (l : List Char) : List Char :=
  ((l.dropWhile wsChar).reverse.dropWhile wsChar).reverse

/-- ASCII lower-casing of one character. -/
def asciiLowerChar (c : Char) : Char :=
  if 'A' ≤ c ∧ c ≤ 'Z' then Char.ofNat (c.toNat + 32) else c

/-- Split on a separator character; mirrors `strings.Split` /
`String.splitOn` for a one-character separator. -/
def splitChar (sep : Char) : List Char → List (List Char)
  | [] => [[]]
  | c :: rest =>
    if c = sep then [] :: splitChar sep rest
    else
      match splitChar sep rest with
      | [] => [[c]]
      | e :: es => (c :: e) :: es

/-- Go `url.URL.IsAbs()`: a URL is absolute iff it has a scheme. -/
def URL.isAbs (u : URL) : Bool :=
  u.scheme ≠ ""

/-! ## Robots policy engine

Modelled from the spec: the parsing and matching engine behind
`RobotsChecker` (the `robotstxt` library) is an external dependency
whose source is not part of this repository.  Per the spec, a policy is
a list of agent groups; "Matching semantics follow the standard robots
exclusion protocol: agent-group selection by exact or wildcard
user-agent match, longest-matching Disallow/Allow prefix wins, empty
`Disallow:` means allow-all for that agent", and parsing is total:
"Malformed input is NOT an error — it yields an allow-all policy". -/

structure RobotsRule where
  allow : Bool
  rulePath : String
deriving DecidableEq, Repr

structure RobotsGroup where
  agents : List String
  rules : List RobotsRule
deriving DecidableEq, Repr

abbrev RobotsPolicy := List RobotsGroup

/-- Parser accumulator: groups finished so far, agents and rules of the
group in progress, and whether the previous directive was a
`User-agent` line (consecutive `User-agent` lines share one group). -/
structure RobotsParseAcc where
  groups : List RobotsGroup
  curAgents : List String
  curRules : List RobotsRule
  agentMode : Bool

/-- Modelled from the spec: consume one robots.txt line.  Recognized
directives are `User-agent`, `Disallow` and `Allow` (case-insensitive
directive names); anything else is ignored. -/
def robotsLine (acc : RobotsParseAcc) (line : List Char) : RobotsParseAcc :=
  let t := trimL line
  let lower := t.map asciiLowerChar
  if "user-agent:".data.isPrefixOf lower then
    let agent := String.mk (trimL (t.drop "user-agent:".length))
    if acc.agentMode then
      { acc with curAgents := acc.curAgents ++ [agent] }
    else if acc.curAgents = [] then
      { acc with curAgents := [agent], curRules := [], agentMode := true }
    else
      { groups := acc.groups ++ [⟨acc.curAgents, acc.curRules⟩],
        curAgents := [agent], curRules := [], agentMode := true }
  else if "disallow:".data.isPrefixOf lower then
    if acc.curAgents = [] then { acc with agentMode := false }
    else
      { acc with
          curRules := acc.curRules ++ [⟨false, String.mk (trimL (t.drop "disallow:".length))⟩],
          agentMode := false }
  else if "allow:".data.isPrefixOf lower then
    if acc.curAgents = [] then { acc with agentMode := false }
    else
      { acc with
          curRules := acc.curRules ++ [⟨true, String.mk (trimL (t.drop "allow:".length))⟩],
          agentMode := false }
  else
    acc

/-- Modelled from the spec: parse a robots.txt body into a policy.
Total: unusable input simply yields a policy with no groups, which
allows everything. -/
def parseRobots (body : String) : RobotsPolicy :=
  let acc := (splitChar '\n' body.data).foldl robotsLine ⟨[], [], [], false⟩
  if acc.curAgents = [] then acc.groups
  else acc.groups ++ [⟨acc.curAgents, acc.curRules⟩]

/-- Modelled from the spec: agent-group selection by exact match first,
then wildcard `*`. -/
def findGroup (p : RobotsPolicy) (agent : String) : Option RobotsGroup :=
  match p.find? (fun g => g.agents.contains agent) with
  | some g => some g
  | none => p.find? (fun g => g.agents.contains "*")

/-- A rule participates in matching when its path is nonempty and is a
prefix of the queried path (empty `Disallow:` rules match nothing,
hence allow-all for that agent). -/
def ruleMatch (r : RobotsRule) (p : String) : Bool :=
  r.rulePath ≠ "" && r.rulePath.data.isPrefixOf p.data

/-- Longest-matching rule wins (strictly longer replaces). -/
def bestRule (rules : List RobotsRule) (p : String) : Option RobotsRule :=
  rules.foldl
    (fun best r =>
      if ruleMatch r p then
        match best with
        | none => some r
        | some b => if r.rulePath.length > b.rulePath.length then some r else best
      else best)
    none

/-- Modelled from the spec: `robotstxt.RobotsData.TestAgent`.  No group
for the agent, or no matching rule, means allowed. -/
def testAgent (p : RobotsPolicy) (queryPath agent : String) : Bool :=
  match findGroup p agent with
  | none => true
  | some g =>
    match bestRule g.rules queryPath with
    | none => true
    | some r => r.allow

/-- `RobotsChecker.IsAllowed` (robots_checker.go): delegates to
`TestAgent` with the string the caller supplies. -/
def isAllowed (p : RobotsPolicy) (queryPath agent : String) : Bool :=
  testAgent p queryPath agent

/-! ## Go `path.Clean`

Port of the standard library's `path.Clean` (the classic Plan 9
`cleanname` algorithm), working on the reversed output buffer `rbuf`
(head = most recently written character).  `dotdot` is the buffer
length below which `..` may not backtrack. -/

/-- The `..` backtracking step of `path.Clean`: drop the last
character, then keep dropping while the buffer is longer than `dotdot`
and the character just dropped is not `/`. -/
def cleanBacktrack (rbuf : List Char) (dotdot : Nat) : List Char :=
  match rbuf with
  | [] => []
  | c :: rest =>
    if rest.length > dotdot ∧ c ≠ '/' then cleanBacktrack rest dotdot else rest

/-- Writing one real path element in `path.Clean`: add a separating
slash if needed, then the element's characters. -/
def cleanWriteElem (rooted : Bool) (elem : List Char) (rbuf : List Char) : List Char :=
  let rbuf' :=
    if (rooted ∧ rbuf.length ≠ 1) ∨ (¬ rooted ∧ rbuf.length ≠ 0)
    then '/' :: rbuf else rbuf
  elem.reverse ++ rbuf'

/-- Main loop of `path.Clean` over the remaining input characters,
transcribing the Go `switch` on conditions.  Structural recursion on
an explicit fuel so the definition reduces in the kernel; every step
consumes at least one input character, so fuel equal to the input
length never runs out. -/
def cleanCore (rooted : Bool) : Nat → List Char → List Char → Nat → List Char
  | 0, _, rbuf, _ => rbuf
  | _ + 1, [], rbuf, _ => rbuf
  | fuel + 1, c :: rest, rbuf, dotdot =>
    if c = '/' then
      -- empty path element
      cleanCore rooted fuel rest rbuf dotdot
    else if c = '.' ∧ (rest = [] ∨ rest.head? = some '/') then
      -- "." element
      cleanCore rooted fuel rest rbuf dotdot
    else if c = '.' ∧ rest.head? = some '.' ∧
        (rest.tail = [] ∨ rest.tail.head? = some '/') then
      -- ".." element: backtrack, or append ".." when not rooted
      if rbuf.length > dotdot then
        cleanCore rooted fuel rest.tail (cleanBacktrack rbuf dotdot) dotdot
      else if ¬ rooted then
        let rbuf2 := if rbuf.length > 0 then '/' :: rbuf else rbuf
        let rbuf3 := '.' :: '.' :: rbuf2
        cleanCore rooted fuel rest.tail rbuf3 rbuf3.length
      else
        cleanCore rooted fuel rest.tail rbuf dotdot
    else
      -- real path element
      cleanCore rooted fuel (rest.dropWhile (· ≠ '/'))
        (cleanWriteElem rooted (c :: rest.takeWhile (· ≠ '/')) rbuf) dotdot

/-- Go `path.Clean`. -/
def goPathClean (p : String) : String :=
  if p = "" then "." else
  let chars := p.data
  let rooted := decide (chars.head? = some '/')
  let rbuf :=
    cleanCore rooted chars.length chars
      (if rooted then ['/'] else []) (if rooted then 1 else 0)
  if rbuf.length = 0 then "." else String.mk rbuf.reverse

/-- `strings.ReplaceAll(p, "//", "/")`: replace non-overlapping `//`
occurrences left to right. -/
def replaceDoubleSlash : List Char → List Char
  | '/' :: '/' :: rest => '/' :: replaceDoubleSlash rest
  | c :: rest => c :: replaceDoubleSlash rest
  | [] => []

/-- `cleanPath` (http_testing_helpers): collapse repeated slashes with
`strings.ReplaceAll`, then apply `path.Clean` for dot segments. -/
def cleanPath (p : String) : String :=
  goPathClean (String.mk (replaceDoubleSlash p.data))

/-! ## Go `net/url` reference resolution -/

/-- `base[:strings.LastIndex(base, "/")+1]`: everything up to and
including the last slash (empty when there is no slash). -/
def upToLastSlash (s : List Char) : List Char :=
  (s.reverse.dropWhile (· ≠ '/')).reverse

/-- One element step of `net/url`'s `resolvePath` segment loop.
State: output characters `dst` (always starting with the forced
leading `'/'`) and the `first` flag.  A `".."` element ignores that
leading slash (`dst[1:]`) and truncates at the last slash of the
remainder, resetting to the bare `"/"` when there is none. -/
def resolveSeg (st : List Char × Bool) (elem : List Char) : List Char × Bool :=
  let (dst, first) := st
  if elem = ['.'] then
    (dst, false)
  else if elem = ['.', '.'] then
    let str := dst.drop 1
    let rchars := str.reverse
    if rchars.contains '/' then
      ('/' :: ((rchars.dropWhile (· ≠ '/')).drop 1).reverse, first)
    else
      (['/'], true)
  else
    (if ¬ first then dst ++ '/' :: elem else dst ++ elem, false)

/-- Port of `net/url`'s `resolvePath(base, ref)`: merge `ref` with the
directory of `base`, then resolve `.` and `..` segments, preserving
empty segments (repeated slashes).  The result always carries a
leading `'/'`, written into the output up front; the merged path's own
leading slash, when present, is represented by it and therefore
consumed before the segment loop (so a non-rooted merged path such as
`a/b/../c` also resolves rooted, to `/a/c`). -/
def resolvePathGo (base ref : String) : String :=
  let full :=
    if ref = "" then base.data
    else if ref.data.head? ≠ some '/' then upToLastSlash base.data ++ ref.data
    else ref.data
  if full = [] then "" else
  let remaining := if full.head? = some '/' then full.tail else full
  let elems := splitChar '/' remaining
  let (dst, _) := elems.foldl resolveSeg (['/'], true)
  let lastElem := elems.getLast? |>.getD []
  if lastElem = ['.'] ∨ lastElem = ['.', '.'] then String.mk (dst ++ ['/'])
  else String.mk dst

/-- Port of Go `url.URL.ResolveReference` for the field subset of
`URL` (the crawler never produces opaque or user-info URLs). -/
def resolveReference (u ref : URL) : URL :=
  let r0 := if ref.scheme = "" then { ref with scheme := u.scheme } else ref
  if ref.scheme ≠ "" ∨ ref.host ≠ "" then
    -- absolute URI or network path
    { r0 with path := resolvePathGo ref.path "" }
  else if ref.path = "" ∧ ref.rawQuery = "" then
    -- reference to base query / fragment
    let r1 := { r0 with rawQuery := u.rawQuery }
    let r2 := if ref.fragment = "" then { r1 with fragment := u.fragment } else r1
    { r2 with host := u.host, path := resolvePathGo u.path ref.path }
  else
    { r0 with host := u.host, path := resolvePathGo u.path ref.path }

/-- `ResolveAndCleanURL` (http_testing_helpers) after href parsing:
resolve against `base` when relative, strip the fragment, clean the
path. -/
def resolveAndCleanURL (base parsedHref : URL) : URL :=
  let resolved := if parsedHref.isAbs then parsedHref else resolveReference base parsedHref
  let resolved := { resolved with fragment := "" }
  { resolved with path := cleanPath resolved.path }

/-- `ResolveAndCleanURL` including the `url.Parse` step, supplied as an
oracle `parseHref`: a parse failure is the only error. -/
def resolveAndCleanURLFrom (parseHref : String → Except String URL)
    (base : URL) (href : String) : Except String URL :=
  match parseHref href with
  | .error e => .error e
  | .ok h => .ok (resolveAndCleanURL base h)

/-! ## Site crawler core (site_crawler.go)

The external collaborators `FetchPage`, `ExtractLinks` and `url.Parse`
are oracle functions collected in `World`; the Go code only branches
on their `(value, err)` results.  The registered processors are
modelled by their count: a post-process task records which processor
index it is for, together with the page URL and content it carries. -/

structure World where
  fetch : URL → Except String String
  extract : String → Except String (List String)
  parseHref : String → Except String URL

structure CrawlerConfig where
  baseURL : URL
  userAgent : String
  robots : RobotsPolicy
  numProcessors : Nat

/-- One queued post-processing task: `processor.Process(ctx, pageURL,
pageContent)` for the processor at `procIdx`. -/
structure PostTask where
  procIdx : Nat
  pageURL : URL
  content : String
deriving DecidableEq, Repr

/-- Crawler state plus observation logs.  `crawledPages` is the
`sync.Map` dedup ledger (set of canonical URL strings), `crawlQueue`
and `postQueue` the two channels.  `enqueued` logs every
`crawlWg.Add(1); CrawlQueue <- task` pair, `fetched` logs every
`FetchPage` call made by `CrawlPage`, and `processed` logs every
executed post-process task. -/
structure CrawlerState where
  crawledPages : List String
  crawlQueue : List URL
  postQueue : List PostTask
  enqueued : List String
  fetched : List URL
  processed : List PostTask
deriving DecidableEq, Repr

def initialState : CrawlerState := ⟨[], [], [], [], [], []⟩

/-- `AddURLToCrawlQueue` (site_crawler.go:86-106): robots check on
`url.String()`, host check, then atomic `LoadOrStore` on the ledger;
only a winning check-and-set increments the counter and enqueues. -/
def addURLToCrawlQueue (cfg : CrawlerConfig) (st : CrawlerState) (u : URL) : CrawlerState :=
  if ¬ isAllowed cfg.robots u.render cfg.userAgent then st
  else if u.host ≠ cfg.baseURL.host then st
  else if u.render ∈ st.crawledPages then st
  else
    { st with crawledPages := u.render :: st.crawledPages,
              crawlQueue := st.crawlQueue ++ [u],
              enqueued := st.enqueued ++ [u.render] }

/-- `AddURLToPostProcessQueue` (site_crawler.go:109-120): one task per
registered processor, all carrying the same `(pageURL, pageContent)`. -/
def addURLToPostProcessQueue (cfg : CrawlerConfig) (st : CrawlerState)
    (pageURL : URL) (pageContent : String) : CrawlerState :=
  { st with postQueue :=
      st.postQueue ++ (List.range cfg.numProcessors).map (fun i => ⟨i, pageURL, pageContent⟩) }

/-- `CrawlPage` (site_crawler.go:52-83): check cancellation before any
fetch work; fetch; on fetch failure return; extract links; on extract
failure return; admit each resolvable link; submit the page for
post-processing. -/
def crawlPage (cfg : CrawlerConfig) (w : World) (cancelled : Bool)
    (st : CrawlerState) (pageURL : URL) : CrawlerState :=
  if cancelled then st
  else
    let st := { st with fetched := st.fetched ++ [pageURL] }
    match w.fetch pageURL with
    | .error _ => st
    | .ok page =>
      match w.extract page with
      | .error _ => st
      | .ok links =>
        let st := links.foldl
          (fun acc link =>
            match resolveAndCleanURLFrom w.parseHref cfg.baseURL link with
            | .error _ => acc
            | .ok parsedLink => addURLToCrawlQueue cfg acc parsedLink)
          st
        addURLToPostProcessQueue cfg st pageURL page

/-! ### Serialized execution model

`sync.Map.LoadOrStore` makes the ledger check-and-set atomic, and the
two channels serialize task hand-off, so every concurrent execution of
the crawler linearizes into a sequence of these steps: an admission
call (`submit`, from any discovery path), a crawl worker taking the
next queued task and running `CrawlPage` under the cancellation state
it observes (`work`), and a post-process worker taking and running the
next post task (`postWork`).  A worker that observes cancellation and
exits simply contributes no further steps. -/

inductive CrawlStep where
  | submit (u : URL)
  | work (cancelled : Bool)
  | postWork
deriving DecidableEq, Repr

def stepRun (cfg : CrawlerConfig) (w : World) (st : CrawlerState) : CrawlStep → CrawlerState
  | .submit u => addURLToCrawlQueue cfg st u
  | .work c =>
    match st.crawlQueue with
    | [] => st
    | t :: rest => crawlPage cfg w c { st with crawlQueue := rest } t
  | .postWork =>
    match st.postQueue with
    | [] => st
    | t :: rest => { st with postQueue := rest, processed := st.processed ++ [t] }

def runSteps (cfg : CrawlerConfig) (w : World) (st : CrawlerState) : List CrawlStep → CrawlerState
  | [] => st
  | s :: ss => runSteps cfg w (stepRun cfg w st s) ss

/-! ### Orchestration (`Crawl`, `CrawlFromSiteMap`, `NewSiteCrawler`) -/

/-- `CrawlFromSiteMap` (site_crawler.go:123-149).  `sitemapURLResult`
is the outcome of `sc.BaseURL.Parse("/sitemap.xml")` and
`parseSitemap` the outcome of `ParseSitemapForUrls`; a sitemap URL
construction failure is returned, fetch and XML-parse failures are
swallowed (`return nil`). -/
def crawlFromSiteMap (cfg : CrawlerConfig) (w : World)
    (sitemapURLResult : Except String URL)
    (parseSitemap : String → Except String (List String))
    (st : CrawlerState) : Except String CrawlerState :=
  match sitemapURLResult with
  | .error e => .error e
  | .ok siteMapUrl =>
    match w.fetch siteMapUrl with
    | .error _ => .ok st
    | .ok siteMap =>
      match parseSitemap siteMap with
      | .error _ => .ok st
      | .ok siteMapUrls =>
        .ok (siteMapUrls.foldl
          (fun acc raw =>
            match resolveAndCleanURLFrom w.parseHref cfg.baseURL raw with
            | .error _ => acc
            | .ok parsed => addURLToCrawlQueue cfg acc (resolveReference cfg.baseURL parsed))
          st)

/-- The ordered shutdown actions at the end of `Crawl`
(site_crawler.go:40-44): `crawlWg.Wait()`, `close(CrawlQueue)`,
`close(PostProcessQueue)`, `postProcessWg.Wait()`. -/
inductive ShutdownEvent where
  | waitCrawlCounterZero
  | closeCrawlQueue
  | closePostProcessQueue
  | waitPostProcessCounterZero
deriving DecidableEq, Repr

def crawlShutdownEvents : List ShutdownEvent :=
  [.waitCrawlCounterZero, .closeCrawlQueue, .closePostProcessQueue, .waitPostProcessCounterZero]

/-- `Crawl` (site_crawler.go:27-48): start the worker pools, seed from
the sitemap (an error there is returned), seed the base URL, then run
the shutdown sequence and return nil. -/
def crawl (cfg : CrawlerConfig) (w : World)
    (sitemapURLResult : Except String URL)
    (parseSitemap : String → Except String (List String))
    (st : CrawlerState) : Except String CrawlerState × List ShutdownEvent :=
  match crawlFromSiteMap cfg w sitemapURLResult parseSitemap st with
  | .error e => (.error e, [])
  | .ok st1 => (.ok (addURLToCrawlQueue cfg st1 cfg.baseURL), crawlShutdownEvents)

/-- `NewSiteCrawler` (site_crawler.go:197-234).  `robotsURLResult` is
the outcome of `sc.BaseURL.Parse("/robots.txt")` and `fetchRobots` the
outcome of fetching it.  The fetch error is assigned to `err` but
overwritten by the `NewRobotsChecker` call without ever being checked,
so a failed fetch leaves `robots = ""`; `NewRobotsChecker` wraps the
spec-modelled total parser and therefore never fails. -/
def newSiteCrawler (robotsURLResult : Except String URL)
    (fetchRobots : Except String String) : Except String RobotsPolicy :=
  match robotsURLResult with
  | .error e => .error e
  | .ok _ =>
    let robots :=
      match fetchRobots with
      | .error _ => ""
      | .ok body => body
    .ok (parseRobots robots)

/-! ## Concrete instances used by witnesses and counterexamples -/

def exBase : URL := ⟨"https", "example.com", "", "", ""⟩

def exTarget : URL := ⟨"https", "example.com", "/page", "", ""⟩

def exCfg : CrawlerConfig := ⟨exBase, "Crawler", [], 2⟩

def exWorld : World :=
  ⟨fun _ => .ok "<html></html>", fun _ => .ok [], fun _ => .error "unparsed"⟩

def exSitemapURL : URL := ⟨"https", "example.com", "/sitemap.xml", "", ""⟩

/-- The robots policy of the spec's running example: disallow the
prefix `/private` for every agent. -/
def c2Policy : RobotsPolicy := parseRobots "User-agent: *\nDisallow: /private"

def c2Target : URL := ⟨"https", "example.com", "/private/page", "", ""⟩

def c2Cfg : CrawlerConfig := ⟨exBase, "Crawler", c2Policy, 1⟩

/-- C3's claim, formalized: each queue-close event is preceded by the
wait on that queue's own completion counter. -/
def eachQueueClosedAfterOwnWait (evs : List ShutdownEvent) : Prop :=
  evs.indexOf .waitCrawlCounterZero < evs.indexOf .closeCrawlQueue ∧
  evs.indexOf .waitPostProcessCounterZero < evs.indexOf .closePostProcessQueue

/-- A step that can occur after the cancellation scope is cancelled:
any submission or post-process step, and only cancelled crawl work. -/
def CrawlStep.afterCancel : CrawlStep → Prop
  | .work c => c = true
  | _ => True

/-- A world whose every fetch fails (non-2xx / transport error). -/
def errWorld : World :=
  ⟨fun _ => .error "HTTP error: Not Found", fun _ => .ok [], fun _ => .error "unparsed"⟩

/-- The repo test's foreign-host URL (`https://external.com/beans`). -/
def extURL : URL := ⟨"https", "external.com", "/beans", "", ""⟩

/-- State after one successful admission of `exTarget`, in a world
where its fetch will subsequently fail. -/
def c10Mid : CrawlerState := runSteps exCfg errWorld initialState [.submit exTarget]

/-- The base URL of the repo's `TestResolveAndCleanURL` table. -/
def c9Base : URL := ⟨"https", "example.com", "/base/path/", "", ""⟩

/-- An absolute href with no fragment and no repeated separator, whose
path nevertheless changes under `ResolveAndCleanURL`. -/
def c9Href : URL := ⟨"https", "example.com", "/a/../b", "", ""⟩

/-- Adjacent characters are not both `'/'`: stating "repeated path
separators are collapsed to one" as a chain over adjacent pairs. -/
def SlashSep (a b : Char) : Prop := ¬(a = '/' ∧ b = '/')

/-- Invariant of `cleanCore`'s output buffer (`rbuf` reversed, head =
most recently written character): no two adjacent slashes; the last
written character is a slash only for the initial rooted buffer `['/']`;
a rooted buffer keeps `dotdot = 1` and starts with `'/'`; a non-rooted
buffer's protected prefix of length `dotdot` is absent or starts with
`'.'` (a written `".."` element). -/
def CleanInv (rooted : Bool) (rbuf : List Char) (dotdot : Nat) : Prop :=
  rbuf.Chain' SlashSep ∧
  (rbuf.head? = some '/' → rooted = true ∧ rbuf = ['/']) ∧
  (rooted = true → dotdot = 1 ∧ rbuf.getLast? = some '/') ∧
  (rooted = false → dotdot = 0 ∨
    (dotdot ≤ rbuf.length ∧ (rbuf.drop (rbuf.length - dotdot)).head? = some '.'))

/-! ## Helper lemmas -/

lemma foldl_preserve {α β : Type} {P : α → Prop} {f : α → β → α}
    (h : ∀ a b, P a → P (f a b)) :
    ∀ (l : List β) (a : α), P a → P (l.foldl f a)
  | [], _, ha => ha
  | b :: l, a, ha => foldl_preserve h l (f a b) (h a b ha)

/-- The result of `AddURLToCrawlQueue` is always either the unchanged
state (some admission check failed or the ledger already had the key)
or the winning-admission update. -/
lemma addURL_cases (cfg : CrawlerConfig) (st : CrawlerState) (u : URL) :
    addURLToCrawlQueue cfg st u = st ∨
    (isAllowed cfg.robots u.render cfg.userAgent = true ∧
      u.host = cfg.baseURL.host ∧
      u.render ∉ st.crawledPages ∧
      addURLToCrawlQueue cfg st u =
        { st with crawledPages := u.render :: st.crawledPages,
                  crawlQueue := st.crawlQueue ++ [u],
                  enqueued := st.enqueued ++ [u.render] }) := by
  unfold addURLToCrawlQueue
  by_cases hA : isAllowed cfg.robots u.render cfg.userAgent = true
  · rw [if_neg (not_not_intro hA)]
    by_cases hH : u.host ≠ cfg.baseURL.host
    · rw [if_pos hH]
      exact Or.inl rfl
    · rw [if_neg hH]
      by_cases hM : u.render ∈ st.crawledPages
      · rw [if_pos hM]
        exact Or.inl rfl
      · rw [if_neg hM]
        exact Or.inr ⟨hA, not_not.mp hH, hM, rfl⟩
  · rw [if_pos hA]
    exact Or.inl rfl

/-- `AddURLToCrawlQueue` when the ledger already holds the canonical
string: the `LoadOrStore` loads and the call returns with no effect. -/
lemma addURL_mem (cfg : CrawlerConfig) (st : CrawlerState) (u : URL)
    (h : u.render ∈ st.crawledPages) : addURLToCrawlQueue cfg st u = st := by
  rcases addURL_cases cfg st u with heq | ⟨_, _, hM, _⟩
  · exact heq
  · exact absurd h hM

/-- `AddURLToCrawlQueue` when the URL's host is not the base host. -/
lemma addURL_host (cfg : CrawlerConfig) (st : CrawlerState) (u : URL)
    (h : u.host ≠ cfg.baseURL.host) : addURLToCrawlQueue cfg st u = st := by
  rcases addURL_cases cfg st u with heq | ⟨_, hH, _, _⟩
  · exact heq
  · exact absurd hH h

/-- `AddURLToCrawlQueue` when all three admission checks pass: the
caller wins the check-and-set and enqueues. -/
lemma addURL_wins (cfg : CrawlerConfig) (st : CrawlerState) (u : URL)
    (hA : isAllowed cfg.robots u.render cfg.userAgent = true)
    (hH : u.host = cfg.baseURL.host) (hM : u.render ∉ st.crawledPages) :
    addURLToCrawlQueue cfg st u =
      { st with crawledPages := u.render :: st.crawledPages,
                crawlQueue := st.crawlQueue ++ [u],
                enqueued := st.enqueued ++ [u.render] } := by
  unfold addURLToCrawlQueue
  rw [if_neg (not_not_intro hA), if_neg (not_not_intro hH), if_neg hM]

/-- `AddURLToCrawlQueue` never touches the post queue, the fetch log or
the processed log. -/
lemma addURL_frame (cfg : CrawlerConfig) (st : CrawlerState) (u : URL) :
    (addURLToCrawlQueue cfg st u).postQueue = st.postQueue ∧
    (addURLToCrawlQueue cfg st u).fetched = st.fetched ∧
    (addURLToCrawlQueue cfg st u).processed = st.processed := by
  rcases addURL_cases cfg st u with heq | ⟨_, _, _, heq⟩ <;>
    rw [heq] <;> exact ⟨rfl, rfl, rfl⟩

/-! ## C1: at-most-once admission -/

/-- The linchpin invariant: every canonical string is enqueued at most
once, and everything enqueued is recorded in the ledger. -/
def AdmissionInv (st : CrawlerState) : Prop :=
  (∀ s : String, st.enqueued.count s ≤ 1) ∧ ∀ s ∈ st.enqueued, s ∈ st.crawledPages

lemma admissionInv_addURL (cfg : CrawlerConfig) (u : URL) :
    ∀ st, AdmissionInv st → AdmissionInv (addURLToCrawlQueue cfg st u) := by
  intro st h
  rcases addURL_cases cfg st u with heq | ⟨_, _, hM, heq⟩
  · rwa [heq]
  · rw [heq]
    obtain ⟨h1, h2⟩ := h
    constructor
    · intro s
      show List.count s (st.enqueued ++ [u.render]) ≤ 1
      rw [List.count_append]
      by_cases hs : s = u.render
      · rw [hs]
        have h0 : List.count u.render st.enqueued = 0 :=
          List.count_eq_zero.mpr (fun hmem => hM (h2 _ hmem))
        simp [h0]
      · have h3 : List.count s [u.render] = 0 :=
          List.count_eq_zero.mpr (by simp [hs])
        rw [h3]
        simpa using h1 s
    · intro s hs
      rcases List.mem_append.mp hs with hmem | hmem
      · exact List.mem_cons_of_mem _ (h2 _ hmem)
      · simp only [List.mem_singleton] at hmem
        rw [hmem]
        exact List.mem_cons_self _ _

lemma admissionInv_crawlPage (cfg : CrawlerConfig) (w : World) (c : Bool) (pageURL : URL) :
    ∀ st, AdmissionInv st → AdmissionInv (crawlPage cfg w c st pageURL) := by
  intro st h
  unfold crawlPage
  split
  · exact h
  · split
    · exact h
    · split
      · exact h
      · refine foldl_preserve (P := AdmissionInv) (fun acc link hacc => ?_) _ _ h
        cases hres : resolveAndCleanURLFrom w.parseHref cfg.baseURL link with
        | error e => simp only [hres]; exact hacc
        | ok parsedLink => simp only [hres]; exact admissionInv_addURL cfg parsedLink acc hacc

lemma admissionInv_step (cfg : CrawlerConfig) (w : World) (s : CrawlStep) :
    ∀ st, AdmissionInv st → AdmissionInv (stepRun cfg w st s) := by
  intro st h
  cases s with
  | submit u => exact admissionInv_addURL cfg u st h
  | work c =>
    simp only [stepRun]
    split
    · exact h
    · exact admissionInv_crawlPage cfg w c _ _ h
  | postWork =>
    simp only [stepRun]
    split
    · exact h
    · exact h

lemma admissionInv_run (cfg : CrawlerConfig) (w : World) :
    ∀ (steps : List CrawlStep) (st : CrawlerState),
      AdmissionInv st → AdmissionInv (runSteps cfg w st steps)
  | [], _, h => h
  | s :: ss, st, h =>
    admissionInv_run cfg w ss (stepRun cfg w st s) (admissionInv_step cfg w s st h)

lemma admissionInv_initial : AdmissionInv initialState := by
  constructor
  · intro s
    simp [initialState]
  · intro s hs
    simp [initialState] at hs

/-- Repeated re-submission of an already-recorded URL is a no-op. -/
lemma run_submit_noop (cfg : CrawlerConfig) (w : World) (u : URL) :
    ∀ (n : Nat) (st : CrawlerState), u.render ∈ st.crawledPages →
      runSteps cfg w st (List.replicate n (.submit u)) = st
  | 0, _, _ => rfl
  | n + 1, st, h => by
    simp only [List.replicate_succ, runSteps, stepRun, addURL_mem cfg st u h]
    exact run_submit_noop cfg w u n st h

/-- C1: in every serialized execution from the fresh crawler state
(any interleaving of admission calls, crawl-worker turns and
post-process turns), each canonical URL string is enqueued at most
once; a call that passes the robots and host checks and wins the
ledger check-and-set enqueues; a call that finds the key in the ledger
returns without any effect; and N submissions of the same Target from
the fresh state yield exactly one enqueued Crawl Task. -/
theorem c1_at_most_once_admission :
    (∀ (cfg : CrawlerConfig) (w : World) (steps : List CrawlStep) (s : String),
       List.count s (runSteps cfg w initialState steps).enqueued ≤ 1)
    ∧ (∀ (cfg : CrawlerConfig) (st : CrawlerState) (u : URL),
        isAllowed cfg.robots u.render cfg.userAgent = true →
        u.host = cfg.baseURL.host →
        u.render ∉ st.crawledPages →
        (addURLToCrawlQueue cfg st u).enqueued = st.enqueued ++ [u.render] ∧
        (addURLToCrawlQueue cfg st u).crawlQueue = st.crawlQueue ++ [u])
    ∧ (∀ (cfg : CrawlerConfig) (st : CrawlerState) (u : URL),
        u.render ∈ st.crawledPages → addURLToCrawlQueue cfg st u = st)
    ∧ (∀ (cfg : CrawlerConfig) (w : World) (u : URL) (N : Nat),
        0 < N →
        isAllowed cfg.robots u.render cfg.userAgent = true →
        u.host = cfg.baseURL.host →
        List.count u.render
          (runSteps cfg w initialState (List.replicate N (.submit u))).enqueued = 1) := by
  refine ⟨?_, ?_, ?_, ?_⟩
  · intro cfg w steps s
    exact (admissionInv_run cfg w steps initialState admissionInv_initial).1 s
  · intro cfg st u hA hH hM
    rw [addURL_wins cfg st u hA hH hM]
    exact ⟨rfl, rfl⟩
  · intro cfg st u h
    exact addURL_mem cfg st u h
  · intro cfg w u N hN hA hH
    obtain ⟨n, rfl⟩ : ∃ n, N = n + 1 := ⟨N - 1, by omega⟩
    have h1 : stepRun cfg w initialState (.submit u) =
        { initialState with crawledPages := [u.render], crawlQueue := [u],
                            enqueued := [u.render] } := by
      show addURLToCrawlQueue cfg initialState u = _
      rw [addURL_wins cfg initialState u hA hH (by simp [initialState])]
      rfl
    rw [List.replicate_succ]
    show List.count u.render (runSteps cfg w (stepRun cfg w initialState (.submit u))
      (List.replicate n (.submit u))).enqueued = 1
    rw [h1, run_submit_noop cfg w u n _ (by simp)]
    simp

/-- Witness for C1 at concrete inputs. -/
theorem c1_witness :
    (0 < 3 ∧ isAllowed exCfg.robots exTarget.render exCfg.userAgent = true ∧
      exTarget.host = exCfg.baseURL.host) ∧
    List.count exTarget.render
      (runSteps exCfg exWorld initialState
        (List.replicate 3 (.submit exTarget))).enqueued = 1 :=
  ⟨⟨by decide, by decide, by decide⟩,
    c1_at_most_once_admission.2.2.2 exCfg exWorld exTarget 3
      (by decide) (by decide) (by decide)⟩

/-- C2 (code bug): `AddURLToCrawlQueue` hands `url.String()` — the full
absolute URL — to the robots matcher, which matches path prefixes.
With the policy "disallow /private", the path-based query correctly
rejects `/private/page`, but the code's full-URL query allows it, so
the Target is admitted, enqueued and fetched. -/
theorem c2_robots_full_url_bug :
    testAgent c2Policy "/private/page" "Crawler" = false ∧
    isAllowed c2Policy (URL.render c2Target) "Crawler" = true ∧
    (addURLToCrawlQueue c2Cfg initialState c2Target).enqueued = [c2Target.render] ∧
    (runSteps c2Cfg exWorld initialState [.submit c2Target, .work false]).fetched
      = [c2Target] :=
  ⟨by decide, by decide, by decide, by decide⟩

/-- C3 counterexample: `Crawl`'s shutdown sequence closes the
post-process queue *before* waiting for the post-process completion
counter, so "each queue is closed only after its own completion
counter reached zero" is false for the post-process queue. -/
theorem c3_shutdown_counterexample :
    (crawl exCfg exWorld (.ok exSitemapURL) (fun _ => .error "xml") initialState).2
      = crawlShutdownEvents ∧
    ¬ eachQueueClosedAfterOwnWait crawlShutdownEvents :=
  ⟨by decide, by unfold eachQueueClosedAfterOwnWait; decide⟩

/-- C3 (amended): the crawl queue is closed only after the crawl
completion counter is awaited; the post-process queue is closed after
that but *before* its own counter is awaited, and the post-process
wait follows the close.  `Crawl` emits exactly this sequence whenever
it does not return early on a sitemap-URL construction error. -/
theorem c3_shutdown_order :
    (crawlShutdownEvents.indexOf .waitCrawlCounterZero <
       crawlShutdownEvents.indexOf .closeCrawlQueue) ∧
    (crawlShutdownEvents.indexOf .closeCrawlQueue <
       crawlShutdownEvents.indexOf .closePostProcessQueue) ∧
    (crawlShutdownEvents.indexOf .closePostProcessQueue <
       crawlShutdownEvents.indexOf .waitPostProcessCounterZero) ∧
    ∀ (cfg : CrawlerConfig) (w : World) (smr : Except String URL)
      (ps : String → Except String (List String)) (st : CrawlerState),
      (crawl cfg w smr ps st).2 = [] ∨ (crawl cfg w smr ps st).2 = crawlShutdownEvents := by
  refine ⟨by decide, by decide, by decide, ?_⟩
  intro cfg w smr ps st
  unfold crawl
  cases crawlFromSiteMap cfg w smr ps st with
  | error e => exact Or.inl rfl
  | ok st1 => exact Or.inr rfl

/-- C5: construction never fails on any robots fetch outcome or body;
a failed fetch leaves the empty body whose policy allows everything,
and any body parsed to a groupless policy likewise allows everything
(for example binary garbage). -/
theorem c5_robots_degradation :
    (∀ (ru : URL) (fr : Except String String), ∃ p, newSiteCrawler (.ok ru) fr = .ok p)
    ∧ (∀ (ru : URL) (e : String),
        newSiteCrawler (.ok ru) (.error e) = .ok (parseRobots "") ∧
        ∀ qp ua, testAgent (parseRobots "") qp ua = true)
    ∧ (∀ body, parseRobots body = [] → ∀ qp ua, testAgent (parseRobots body) qp ua = true)
    ∧ parseRobots "%%%garbage@@@" = [] := by
  refine ⟨?_, ?_, ?_, by decide⟩
  · intro ru fr
    cases fr with
    | error e => exact ⟨_, rfl⟩
    | ok body => exact ⟨_, rfl⟩
  · intro ru e
    exact ⟨rfl, fun qp ua => rfl⟩
  · intro body h qp ua
    rw [h]
    rfl

/-- Witness for C5 at a concrete unusable body. -/
theorem c5_witness :
    parseRobots "%%%garbage@@@" = [] ∧
    testAgent (parseRobots "%%%garbage@@@") "/x" "Bot" = true :=
  ⟨by decide, c5_robots_degradation.2.2.1 "%%%garbage@@@" (by decide) "/x" "Bot"⟩

/-- C6: `Crawl` returns an error exactly when constructing the sitemap
request URL failed; sitemap fetch failures and sitemap XML parse
failures yield a nil return (the crawl degrades to base-URL seeding). -/
theorem c6_crawl_error_surface :
    ∀ (cfg : CrawlerConfig) (w : World) (smr : Except String URL)
      (ps : String → Except String (List String)) (st : CrawlerState) (e : String),
      (crawl cfg w smr ps st).1 = .error e ↔ smr = .error e := by
  intro cfg w smr ps st e
  cases smr with
  | error e' => simp [crawl, crawlFromSiteMap]
  | ok u =>
    cases hf : w.fetch u with
    | error _ => simp [crawl, crawlFromSiteMap, hf]
    | ok body =>
      cases hp : ps body with
      | error _ => simp [crawl, crawlFromSiteMap, hf, hp]
      | ok urls => simp [crawl, crawlFromSiteMap, hf, hp]

/-! ## C4: dispatch iff fetch success -/

/-- The link-admission fold inside `CrawlPage` never touches the post
queue, the fetch log or the processed log. -/
lemma linkFold_frame (cfg : CrawlerConfig) (w : World) (links : List String)
    (st0 : CrawlerState) :
    (links.foldl
        (fun acc link =>
          match resolveAndCleanURLFrom w.parseHref cfg.baseURL link with
          | .error _ => acc
          | .ok parsedLink => addURLToCrawlQueue cfg acc parsedLink) st0).postQueue
        = st0.postQueue ∧
    (links.foldl
        (fun acc link =>
          match resolveAndCleanURLFrom w.parseHref cfg.baseURL link with
          | .error _ => acc
          | .ok parsedLink => addURLToCrawlQueue cfg acc parsedLink) st0).fetched
        = st0.fetched ∧
    (links.foldl
        (fun acc link =>
          match resolveAndCleanURLFrom w.parseHref cfg.baseURL link with
          | .error _ => acc
          | .ok parsedLink => addURLToCrawlQueue cfg acc parsedLink) st0).processed
        = st0.processed := by
  refine foldl_preserve
    (P := fun x : CrawlerState => x.postQueue = st0.postQueue ∧ x.fetched = st0.fetched ∧
      x.processed = st0.processed)
    (fun acc link hacc => ?_) links st0 ⟨rfl, rfl, rfl⟩
  cases hres : resolveAndCleanURLFrom w.parseHref cfg.baseURL link with
  | error e => simpa only [hres] using hacc
  | ok parsedLink =>
    simp only [hres]
    obtain ⟨f1, f2, f3⟩ := addURL_frame cfg acc parsedLink
    obtain ⟨h1, h2, h3⟩ := hacc
    exact ⟨f1.trans h1, f2.trans h2, f3.trans h3⟩

/-- C4: when the fetch of a page fails, `CrawlPage` performs the fetch
attempt and nothing else — no link is admitted and no post-process
task is created; when the fetch succeeds and link extraction returns,
exactly one post-process task per registered processor is enqueued,
all carrying the same `(target, content)` pair. -/
theorem c4_dispatch_iff_fetch_success :
    (∀ (cfg : CrawlerConfig) (w : World) (st : CrawlerState) (u : URL) (e : String),
       w.fetch u = .error e →
       crawlPage cfg w false st u = { st with fetched := st.fetched ++ [u] })
    ∧ (∀ (cfg : CrawlerConfig) (w : World) (st : CrawlerState) (u : URL)
        (page : String) (links : List String),
        w.fetch u = .ok page → w.extract page = .ok links →
        (crawlPage cfg w false st u).postQueue =
          st.postQueue ++
            (List.range cfg.numProcessors).map (fun i => ⟨i, u, page⟩)) := by
  constructor
  · intro cfg w st u e hf
    simp [crawlPage, hf]
  · intro cfg w st u page links hf hx
    simp only [crawlPage, Bool.false_eq_true, if_false, hf, hx]
    show (addURLToPostProcessQueue cfg _ u page).postQueue = _
    simp only [addURLToPostProcessQueue]
    rw [(linkFold_frame cfg w links _).1]

/-- Witness for C4: a failing fetch dispatches nothing; a successful
fetch with two registered processors dispatches exactly two identical
tasks. -/
theorem c4_witness :
    (errWorld.fetch exTarget = .error "HTTP error: Not Found" ∧
      crawlPage exCfg errWorld false initialState exTarget
        = { initialState with fetched := initialState.fetched ++ [exTarget] }) ∧
    exWorld.fetch exTarget = .ok "<html></html>" ∧
    (crawlPage exCfg exWorld false initialState exTarget).postQueue
      = initialState.postQueue ++
          (List.range exCfg.numProcessors).map (fun i => ⟨i, exTarget, "<html></html>"⟩) :=
  ⟨⟨rfl,
    c4_dispatch_iff_fetch_success.1 exCfg errWorld initialState exTarget
      "HTTP error: Not Found" rfl⟩,
   rfl,
   c4_dispatch_iff_fetch_success.2 exCfg exWorld initialState exTarget
     "<html></html>" [] rfl rfl⟩

/-! ## C7: cancellation -/

lemma fetched_stable_step (cfg : CrawlerConfig) (w : World) (s : CrawlStep)
    (st : CrawlerState) (h : s.afterCancel) :
    (stepRun cfg w st s).fetched = st.fetched := by
  cases s with
  | submit u => exact (addURL_frame cfg st u).2.1
  | work c =>
    have hc : c = true := h
    subst hc
    simp only [stepRun]
    split
    · rfl
    · simp [crawlPage]
  | postWork =>
    simp only [stepRun]
    split
    · rfl
    · rfl

lemma runSteps_append (cfg : CrawlerConfig) (w : World) :
    ∀ (pre post : List CrawlStep) (st : CrawlerState),
      runSteps cfg w st (pre ++ post) = runSteps cfg w (runSteps cfg w st pre) post
  | [], _, _ => rfl
  | s :: ss, post, st => runSteps_append cfg w ss post (stepRun cfg w st s)

lemma fetched_stable_run (cfg : CrawlerConfig) (w : World) :
    ∀ (steps : List CrawlStep) (st : CrawlerState),
      (∀ s ∈ steps, s.afterCancel) → (runSteps cfg w st steps).fetched = st.fetched
  | [], _, _ => rfl
  | s :: ss, st, h => by
    show (runSteps cfg w (stepRun cfg w st s) ss).fetched = st.fetched
    rw [fetched_stable_run cfg w ss _ (fun x hx => h x (List.mem_cons_of_mem _ hx))]
    exact fetched_stable_step cfg w s st (h s (List.mem_cons_self _ _))

/-- C7: `CrawlPage` checks cancellation before any fetch work and
returns immediately once cancelled, and from the cancellation point on
(all later crawl-worker turns observe the cancelled scope) no further
fetch ever happens — in particular no Target submitted after that
point is fetched, while everything fetched before stands. -/
theorem c7_cancellation :
    (∀ (cfg : CrawlerConfig) (w : World) (st : CrawlerState) (u : URL),
       crawlPage cfg w true st u = st)
    ∧ (∀ (cfg : CrawlerConfig) (w : World) (st : CrawlerState)
        (pre post : List CrawlStep),
        (∀ s ∈ post, s.afterCancel) →
        (runSteps cfg w st (pre ++ post)).fetched = (runSteps cfg w st pre).fetched) := by
  constructor
  · intro cfg w st u
    simp [crawlPage]
  · intro cfg w st pre post h
    rw [runSteps_append, fetched_stable_run cfg w post _ h]

/-- Witness for C7: a Target submitted after cancellation, with a
worker turn that would have crawled it, adds nothing to the fetch
log. -/
theorem c7_witness :
    (∀ s ∈ [CrawlStep.submit exBase, CrawlStep.work true], s.afterCancel) ∧
    (runSteps exCfg exWorld initialState
        ([.submit exTarget, .work false] ++ [.submit exBase, .work true])).fetched
      = (runSteps exCfg exWorld initialState [.submit exTarget, .work false]).fetched :=
  ⟨by intro s hs
      simp only [List.mem_cons, List.mem_singleton] at hs
      rcases hs with rfl | rfl | h
      · trivial
      · rfl
      · exact absurd h (List.not_mem_nil s),
   c7_cancellation.2 exCfg exWorld initialState
     [.submit exTarget, .work false] [.submit exBase, .work true]
     (by intro s hs
         simp only [List.mem_cons, List.mem_singleton] at hs
         rcases hs with rfl | rfl | h
         · trivial
         · rfl
         · exact absurd h (List.not_mem_nil s))⟩

/-! ## C8: host boundary -/

/-- Everything queued for crawling and everything ever fetched is on
the base host. -/
def HostInv (cfg : CrawlerConfig) (st : CrawlerState) : Prop :=
  (∀ t ∈ st.crawlQueue, t.host = cfg.baseURL.host) ∧
  ∀ v ∈ st.fetched, v.host = cfg.baseURL.host

lemma hostInv_addURL (cfg : CrawlerConfig) (u : URL) :
    ∀ st, HostInv cfg st → HostInv cfg (addURLToCrawlQueue cfg st u) := by
  intro st h
  rcases addURL_cases cfg st u with heq | ⟨_, hH, _, heq⟩
  · rwa [heq]
  · rw [heq]
    obtain ⟨h1, h2⟩ := h
    refine ⟨?_, h2⟩
    intro t ht
    rcases List.mem_append.mp ht with hmem | hmem
    · exact h1 t hmem
    · simp only [List.mem_singleton] at hmem
      rw [hmem]
      exact hH

lemma hostInv_crawlPage (cfg : CrawlerConfig) (w : World) (c : Bool) (pageURL : URL)
    (hp : pageURL.host = cfg.baseURL.host) :
    ∀ st, HostInv cfg st → HostInv cfg (crawlPage cfg w c st pageURL) := by
  intro st h
  obtain ⟨h1, h2⟩ := h
  have h' : HostInv cfg { st with fetched := st.fetched ++ [pageURL] } := by
    refine ⟨h1, ?_⟩
    intro v hv
    rcases List.mem_append.mp hv with hmem | hmem
    · exact h2 v hmem
    · simp only [List.mem_singleton] at hmem
      rw [hmem]
      exact hp
  unfold crawlPage
  split
  · exact ⟨h1, h2⟩
  · split
    · exact h'
    · split
      · exact h'
      · refine foldl_preserve (P := HostInv cfg) (fun acc link hacc => ?_) _ _ h'
        cases hres : resolveAndCleanURLFrom w.parseHref cfg.baseURL link with
        | error e => simpa only [hres] using hacc
        | ok parsedLink =>
          simp only [hres]
          exact hostInv_addURL cfg parsedLink acc hacc

lemma hostInv_step (cfg : CrawlerConfig) (w : World) (s : CrawlStep) :
    ∀ st, HostInv cfg st → HostInv cfg (stepRun cfg w st s) := by
  intro st h
  cases s with
  | submit u => exact hostInv_addURL cfg u st h
  | work c =>
    simp only [stepRun]
    split
    · exact h
    · rename_i t rest hq
      obtain ⟨h1, h2⟩ := h
      have ht : t.host = cfg.baseURL.host := h1 t (hq ▸ List.mem_cons_self t rest)
      have hrest : HostInv cfg { st with crawlQueue := rest } :=
        ⟨fun x hx => h1 x (hq ▸ List.mem_cons_of_mem t hx), h2⟩
      exact hostInv_crawlPage cfg w c t ht _ hrest
  | postWork =>
    simp only [stepRun]
    split
    · exact h
    · exact ⟨h.1, h.2⟩

lemma hostInv_run (cfg : CrawlerConfig) (w : World) :
    ∀ (steps : List CrawlStep) (st : CrawlerState),
      HostInv cfg st → HostInv cfg (runSteps cfg w st steps)
  | [], _, h => h
  | s :: ss, st, h => hostInv_run cfg w ss (stepRun cfg w st s) (hostInv_step cfg w s st h)

/-- C8: a URL whose host differs from the base host is never admitted
(`AddURLToCrawlQueue` is a no-op for it) and, in any serialized
execution from the fresh state, everything that gets fetched is on the
base host — so such a URL is never fetched, whether discovered on a
page or submitted directly. -/
theorem c8_host_boundary :
    (∀ (cfg : CrawlerConfig) (st : CrawlerState) (u : URL),
       u.host ≠ cfg.baseURL.host → addURLToCrawlQueue cfg st u = st)
    ∧ (∀ (cfg : CrawlerConfig) (w : World) (steps : List CrawlStep) (v : URL),
        v ∈ (runSteps cfg w initialState steps).fetched →
        v.host = cfg.baseURL.host) := by
  constructor
  · intro cfg st u h
    exact addURL_host cfg st u h
  · intro cfg w steps v hv
    have hInv : HostInv cfg initialState := by
      constructor
      · intro t ht
        simp [initialState] at ht
      · intro t ht
        simp [initialState] at ht
    exact (hostInv_run cfg w steps initialState hInv).2 v hv

/-- Witness for C8: the repo test's foreign-host URL is rejected, and a
fetched same-host URL indeed carries the base host. -/
theorem c8_witness :
    extURL.host ≠ exCfg.baseURL.host ∧
    addURLToCrawlQueue exCfg initialState extURL = initialState ∧
    exTarget ∈ (runSteps exCfg exWorld initialState
      [.submit exTarget, .work false]).fetched ∧
    exTarget.host = exCfg.baseURL.host :=
  ⟨by decide,
   c8_host_boundary.1 exCfg initialState extURL (by decide),
   by decide,
   c8_host_boundary.2 exCfg exWorld [.submit exTarget, .work false] exTarget (by decide)⟩

/-! ## C10: admission is permanent regardless of outcome -/

lemma ledger_permanent_addURL (cfg : CrawlerConfig) (u : URL) (s : String) :
    ∀ st, s ∈ st.crawledPages →
      s ∈ (addURLToCrawlQueue cfg st u).crawledPages ∧
      List.count s (addURLToCrawlQueue cfg st u).enqueued = List.count s st.enqueued := by
  intro st h
  rcases addURL_cases cfg st u with heq | ⟨_, _, hM, heq⟩
  · rw [heq]
    exact ⟨h, rfl⟩
  · rw [heq]
    refine ⟨List.mem_cons_of_mem _ h, ?_⟩
    show List.count s (st.enqueued ++ [u.render]) = _
    have hne : s ≠ u.render := fun hcontra => hM (hcontra ▸ h)
    have h0 : List.count s [u.render] = 0 := List.count_eq_zero.mpr (by simp [hne])
    rw [List.count_append, h0]
    exact Nat.add_zero _

lemma ledger_permanent_crawlPage (cfg : CrawlerConfig) (w : World) (c : Bool)
    (pageURL : URL) (s : String) :
    ∀ st, s ∈ st.crawledPages →
      s ∈ (crawlPage cfg w c st pageURL).crawledPages ∧
      List.count s (crawlPage cfg w c st pageURL).enqueued = List.count s st.enqueued := by
  intro st h
  unfold crawlPage
  split
  · exact ⟨h, rfl⟩
  · split
    · exact ⟨h, rfl⟩
    · split
      · exact ⟨h, rfl⟩
      · refine foldl_preserve
          (P := fun x : CrawlerState => s ∈ x.crawledPages ∧
            List.count s x.enqueued = List.count s st.enqueued)
          (fun acc link hacc => ?_) _ _ ⟨h, rfl⟩
        cases hres : resolveAndCleanURLFrom w.parseHref cfg.baseURL link with
        | error e => simpa only [hres] using hacc
        | ok parsedLink =>
          simp only [hres]
          obtain ⟨hmem, hcount⟩ := hacc
          obtain ⟨hmem', hcount'⟩ := ledger_permanent_addURL cfg parsedLink s acc hmem
          exact ⟨hmem', hcount'.trans hcount⟩

lemma ledger_permanent_step (cfg : CrawlerConfig) (w : World) (step : CrawlStep)
    (s : String) :
    ∀ st, s ∈ st.crawledPages →
      s ∈ (stepRun cfg w st step).crawledPages ∧
      List.count s (stepRun cfg w st step).enqueued = List.count s st.enqueued := by
  intro st h
  cases step with
  | submit u => exact ledger_permanent_addURL cfg u s st h
  | work c =>
    simp only [stepRun]
    split
    · exact ⟨h, rfl⟩
    · exact ledger_permanent_crawlPage cfg w c _ s _ h
  | postWork =>
    simp only [stepRun]
    split
    · exact ⟨h, rfl⟩
    · exact ⟨h, rfl⟩

lemma ledger_permanent_run (cfg : CrawlerConfig) (w : World) (s : String) :
    ∀ (steps : List CrawlStep) (st : CrawlerState), s ∈ st.crawledPages →
      s ∈ (runSteps cfg w st steps).crawledPages ∧
      List.count s (runSteps cfg w st steps).enqueued = List.count s st.enqueued
  | [], _, h => ⟨h, rfl⟩
  | step :: ss, st, h => by
    obtain ⟨h1, h2⟩ := ledger_permanent_step cfg w step s st h
    obtain ⟨h3, h4⟩ := ledger_permanent_run cfg w s ss (stepRun cfg w st step) h1
    exact ⟨h3, h4.trans h2⟩

/-- C10: a winning admission records the canonical string in the dedup
ledger in the same atomic step that enqueues, and no later operation —
failed fetches, cancelled tasks, repeated discoveries included —
removes the entry or enqueues that string again. -/
theorem c10_admission_permanent :
    (∀ (cfg : CrawlerConfig) (st : CrawlerState) (u : URL),
       isAllowed cfg.robots u.render cfg.userAgent = true →
       u.host = cfg.baseURL.host →
       u.render ∉ st.crawledPages →
       u.render ∈ (addURLToCrawlQueue cfg st u).crawledPages)
    ∧ (∀ (cfg : CrawlerConfig) (w : World) (st : CrawlerState)
        (steps : List CrawlStep) (s : String), s ∈ st.crawledPages →
        s ∈ (runSteps cfg w st steps).crawledPages ∧
        List.count s (runSteps cfg w st steps).enqueued = List.count s st.enqueued) := by
  constructor
  · intro cfg st u hA hH hM
    rw [addURL_wins cfg st u hA hH hM]
    exact List.mem_cons_self _ _
  · intro cfg w st steps s h
    exact ledger_permanent_run cfg w s steps st h

/-- Witness for C10: after admitting a Target whose fetch then fails,
the ledger entry survives the failed crawl and a re-submission, and no
second enqueue of its canonical string happens. -/
theorem c10_witness :
    exTarget.render ∈ c10Mid.crawledPages ∧
    exTarget.render ∈
      (runSteps exCfg errWorld c10Mid [.work false, .submit exTarget]).crawledPages ∧
    List.count exTarget.render
      (runSteps exCfg errWorld c10Mid [.work false, .submit exTarget]).enqueued
      = List.count exTarget.render c10Mid.enqueued :=
  ⟨by decide,
   (c10_admission_permanent.2 exCfg errWorld c10Mid
     [.work false, .submit exTarget] exTarget.render (by decide)).1,
   (c10_admission_permanent.2 exCfg errWorld c10Mid
     [.work false, .submit exTarget] exTarget.render (by decide)).2⟩

/-! ## Slash-collapsing property of path cleaning

`cleanPath` output never contains two adjacent separators: an
invariant of `cleanCore`'s output buffer, threaded through
backtracking, `".."` writes and element writes. -/

lemma slashSep_flip : flip SlashSep = SlashSep := by
  funext a b
  simp only [flip, SlashSep, eq_iff_iff, and_comm]

lemma chain'_of_no_slash {l : List Char} (h : ∀ c ∈ l, c ≠ '/') :
    l.Chain' SlashSep := by
  induction l with
  | nil => exact List.chain'_nil
  | cons a l ih =>
    rw [List.chain'_cons']
    exact ⟨fun y _ hpair => h a (List.mem_cons_self a l) hpair.1,
      ih fun c hc => h c (List.mem_cons_of_mem a hc)⟩

/-- `cleanBacktrack` drops a positive number of characters, never cuts
into the protected prefix, and stops either exactly at the protected
boundary or just past a dropped `'/'`. -/
lemma cleanBacktrack_spec :
    ∀ (rbuf : List Char) (dotdot : Nat), dotdot < rbuf.length →
      ∃ k, 1 ≤ k ∧ k ≤ rbuf.length ∧
        cleanBacktrack rbuf dotdot = rbuf.drop k ∧
        dotdot ≤ rbuf.length - k ∧
        (rbuf.length - k = dotdot ∨ rbuf[k - 1]? = some '/')
  | [], dotdot, h => absurd h (by simp)
  | c :: rest, dotdot, h => by
    rw [cleanBacktrack]
    by_cases hc : rest.length > dotdot ∧ c ≠ '/'
    · rw [if_pos hc]
      obtain ⟨k, hk1, hk2, heq, hge, hcase⟩ := cleanBacktrack_spec rest dotdot hc.1
      refine ⟨k + 1, by omega, by simp only [List.length_cons]; omega, ?_, ?_, ?_⟩
      · rw [List.drop_succ_cons]
        exact heq
      · simp only [List.length_cons]
        omega
      · rcases hcase with h1 | h1
        · left
          simp only [List.length_cons]
          omega
        · right
          have hk' : k + 1 - 1 = (k - 1) + 1 := by omega
          rw [hk', List.getElem?_cons_succ]
          exact h1
    · rw [if_neg hc]
      have hdle : dotdot ≤ rest.length := by
        simp only [List.length_cons] at h
        omega
      refine ⟨1, le_refl 1, by simp only [List.length_cons]; omega, rfl, ?_, ?_⟩
      · simp only [List.length_cons]
        omega
      · rcases not_and_or.mp hc with h1 | h1
        · left
          simp only [List.length_cons]
          omega
        · right
          simp only [not_not] at h1
          simp [h1]

lemma cleanInv_backtrack {rooted : Bool} {rbuf : List Char} {dotdot : Nat}
    (h : CleanInv rooted rbuf dotdot) (hlen : dotdot < rbuf.length) :
    CleanInv rooted (cleanBacktrack rbuf dotdot) dotdot := by
  obtain ⟨hch, hhead, hroot, hdd⟩ := h
  obtain ⟨k, hk1, hk2, heq, hge, hcase⟩ := cleanBacktrack_spec rbuf dotdot hlen
  rw [heq]
  refine ⟨hch.drop k, ?_, ?_, ?_⟩
  · intro hh
    have hkl : k < rbuf.length := by
      by_contra hcon
      rw [List.drop_eq_nil_of_le (by omega)] at hh
      cases hh
    rcases hcase with hstop | hslash
    · cases hrv : rooted with
      | false =>
        rcases hdd hrv with h0 | ⟨hle, hsuf⟩
        · omega
        · have hk' : k = rbuf.length - dotdot := by omega
          rw [hk', hsuf] at hh
          cases hh
      | true =>
        obtain ⟨hd1, hlast⟩ := hroot hrv
        have hlen1 : (rbuf.drop k).length = 1 := by
          simp only [List.length_drop]
          omega
        obtain ⟨a, ha⟩ := List.length_eq_one.mp hlen1
        have hlast' : (rbuf.drop k).getLast? = some '/' := by
          rw [List.getLast?_drop, if_neg (by omega)]
          exact hlast
        rw [ha] at hlast' ⊢
        simp only [List.getLast?_singleton, Option.some.injEq] at hlast'
        exact ⟨rfl, by rw [hlast']⟩
    · have hget : rbuf[k]? = some '/' := by
        rw [List.drop_eq_getElem_cons hkl] at hh
        simp only [List.head?_cons, Option.some.injEq] at hh
        rw [List.getElem?_eq_getElem hkl, hh]
      have hprev : rbuf[k - 1] = '/' := by
        obtain ⟨_, hv⟩ := List.getElem?_eq_some_iff.mp hslash
        exact hv
      have hcur : rbuf[k] = '/' := by
        obtain ⟨_, hv⟩ := List.getElem?_eq_some_iff.mp hget
        exact hv
      have hadj := List.chain'_iff_get.mp hch (k - 1) (by omega)
      have hk' : k - 1 + 1 = k := by omega
      apply absurd hadj
      simp only [SlashSep, List.get_eq_getElem, hk', not_not]
      exact ⟨hprev, hcur⟩
  · intro hrv
    obtain ⟨hd1, hlast⟩ := hroot hrv
    refine ⟨hd1, ?_⟩
    rw [List.getLast?_drop, if_neg (by omega)]
    exact hlast
  · intro hrv
    rcases hdd hrv with h0 | ⟨hle, hsuf⟩
    · exact Or.inl h0
    · right
      refine ⟨by simp only [List.length_drop]; omega, ?_⟩
      rw [List.length_drop, List.drop_drop]
      have harith : k + (rbuf.length - k - dotdot) = rbuf.length - dotdot := by omega
      rw [harith]
      exact hsuf

/-- Appending one nonempty slash-free element (with its separating
slash when needed) preserves the buffer invariant. -/
lemma cleanInv_write_aux {rooted : Bool} {rbuf' : List Char} {dotdot : Nat}
    (elem : List Char) (hne : elem ≠ []) (hnos : ∀ c ∈ elem, c ≠ '/')
    (hch : rbuf'.Chain' SlashSep)
    (hroot : rooted = true → dotdot = 1 ∧ rbuf'.getLast? = some '/')
    (hdd : rooted = false → dotdot = 0 ∨
      (dotdot ≤ rbuf'.length ∧ (rbuf'.drop (rbuf'.length - dotdot)).head? = some '.')) :
    CleanInv rooted (elem.reverse ++ rbuf') dotdot := by
  have hner : elem.reverse ≠ [] := by
    simpa using hne
  obtain ⟨a, as, ha⟩ := List.exists_cons_of_ne_nil hner
  have hmem : ∀ c ∈ elem.reverse, c ≠ '/' := fun c hc => hnos c (List.mem_reverse.mp hc)
  refine ⟨?_, ?_, ?_, ?_⟩
  · rw [List.chain'_append]
    refine ⟨chain'_of_no_slash hmem, hch, ?_⟩
    intro x hx y _ hpair
    exact hmem x (List.mem_of_mem_getLast? hx) hpair.1
  · intro hh
    rw [ha] at hh
    simp only [List.cons_append, List.head?_cons, Option.some.injEq] at hh
    exact absurd hh (hmem a (ha ▸ List.mem_cons_self a as))
  · intro hrv
    obtain ⟨hd1, hlast⟩ := hroot hrv
    have hne2 : rbuf' ≠ [] := by
      intro hcon
      rw [hcon] at hlast
      cases hlast
    rw [List.getLast?_append_of_ne_nil _ hne2]
    exact ⟨hd1, hlast⟩
  · intro hrv
    rcases hdd hrv with h0 | ⟨hle, hsuf⟩
    · exact Or.inl h0
    · right
      refine ⟨by simp only [List.length_append]; omega, ?_⟩
      have harith : (elem.reverse ++ rbuf').length - dotdot
          = elem.reverse.length + (rbuf'.length - dotdot) := by
        simp only [List.length_append]
        omega
      rw [harith, List.drop_append]
      exact hsuf

lemma cleanInv_write {rooted : Bool} {rbuf : List Char} {dotdot : Nat}
    (h : CleanInv rooted rbuf dotdot) (elem : List Char) (hne : elem ≠ [])
    (hnos : ∀ c ∈ elem, c ≠ '/') :
    CleanInv rooted (cleanWriteElem rooted elem rbuf) dotdot := by
  obtain ⟨hch, hhead, hroot, hdd⟩ := h
  unfold cleanWriteElem
  by_cases hc : (rooted = true ∧ rbuf.length ≠ 1) ∨ (¬ rooted = true ∧ rbuf.length ≠ 0)
  · rw [if_pos hc]
    have hheadr : rbuf.head? ≠ some '/' := by
      intro hcon
      obtain ⟨hrv, hone⟩ := hhead hcon
      rw [hone] at hc
      rcases hc with ⟨_, hbad⟩ | ⟨hbad, _⟩
      · exact hbad rfl
      · exact hbad hrv
    refine cleanInv_write_aux elem hne hnos ?_ ?_ ?_
    · rw [List.chain'_cons']
      refine ⟨fun y hy hpair => hheadr ?_, hch⟩
      rw [Option.mem_def] at hy
      rw [hpair.2] at hy
      exact hy
    · intro hrv
      obtain ⟨hd1, hlast⟩ := hroot hrv
      have hne2 : rbuf ≠ [] := by
        intro hcon
        rw [hcon] at hlast
        cases hlast
      refine ⟨hd1, ?_⟩
      show (['/'] ++ rbuf).getLast? = some '/'
      rw [List.getLast?_append_of_ne_nil _ hne2]
      exact hlast
    · intro hrv
      rcases hdd hrv with h0 | ⟨hle, hsuf⟩
      · exact Or.inl h0
      · right
        refine ⟨by simp only [List.length_cons]; omega, ?_⟩
        have harith : ('/' :: rbuf).length - dotdot = (rbuf.length - dotdot) + 1 := by
          simp only [List.length_cons]
          omega
        rw [harith, List.drop_succ_cons]
        exact hsuf
  · rw [if_neg hc]
    exact cleanInv_write_aux elem hne hnos hch hroot hdd

/-- Writing a `".."` element in the non-rooted case establishes the
invariant at the new protected boundary. -/
lemma cleanInv_dotdotAppend {rbuf : List Char} {dotdot : Nat}
    (h : CleanInv false rbuf dotdot) :
    CleanInv false ('.' :: '.' :: (if rbuf.length > 0 then '/' :: rbuf else rbuf))
      ('.' :: '.' :: (if rbuf.length > 0 then '/' :: rbuf else rbuf)).length := by
  obtain ⟨hch, hhead, _, _⟩ := h
  by_cases hz : rbuf.length > 0
  · rw [if_pos hz]
    have hheadr : rbuf.head? ≠ some '/' := by
      intro hcon
      exact absurd (hhead hcon).1 (by simp)
    refine ⟨?_, ?_, ?_, ?_⟩
    · rw [List.chain'_cons', List.chain'_cons', List.chain'_cons']
      refine ⟨by simp [SlashSep], by simp [SlashSep],
        fun y hy hpair => hheadr ?_, hch⟩
      rw [Option.mem_def] at hy
      rw [hpair.2] at hy
      exact hy
    · intro hh
      simp only [List.head?_cons, Option.some.injEq] at hh
      cases hh
    · intro hcon
      cases hcon
    · intro _
      right
      refine ⟨le_refl _, ?_⟩
      simp
  · rw [if_neg hz]
    have hrb : rbuf = [] := by
      cases rbuf with
      | nil => rfl
      | cons a l => simp at hz
    rw [hrb]
    refine ⟨?_, ?_, ?_, ?_⟩
    · rw [List.chain'_cons']
      exact ⟨by simp [SlashSep], List.chain'_singleton '.'⟩
    · intro hh
      simp only [List.head?_cons, Option.some.injEq] at hh
      cases hh
    · intro hcon
      cases hcon
    · intro _
      right
      refine ⟨le_refl _, ?_⟩
      simp

lemma cleanInv_cleanCore (rooted : Bool) :
    ∀ (fuel : Nat) (p rbuf : List Char) (dotdot : Nat),
      CleanInv rooted rbuf dotdot →
      ∃ dd, CleanInv rooted (cleanCore rooted fuel p rbuf dotdot) dd := by
  intro fuel
  induction fuel with
  | zero =>
    intro p rbuf dotdot h
    exact ⟨dotdot, h⟩
  | succ n ih =>
    intro p rbuf dotdot h
    cases p with
    | nil => exact ⟨dotdot, h⟩
    | cons c rest =>
      rw [cleanCore]
      by_cases h1 : c = '/'
      · rw [if_pos h1]
        exact ih rest rbuf dotdot h
      · rw [if_neg h1]
        by_cases h2 : c = '.' ∧ (rest = [] ∨ rest.head? = some '/')
        · rw [if_pos h2]
          exact ih rest rbuf dotdot h
        · rw [if_neg h2]
          by_cases h3 : c = '.' ∧ rest.head? = some '.' ∧
              (rest.tail = [] ∨ rest.tail.head? = some '/')
          · rw [if_pos h3]
            by_cases h4 : rbuf.length > dotdot
            · rw [if_pos h4]
              exact ih rest.tail _ dotdot (cleanInv_backtrack h h4)
            · rw [if_neg h4]
              by_cases hrv : rooted = true
              · rw [if_neg (by simp [hrv])]
                exact ih rest.tail rbuf dotdot h
              · have hrf : rooted = false := by
                  revert hrv
                  cases rooted <;> simp
                rw [if_pos hrv]
                rw [hrf] at ih h ⊢
                exact ih rest.tail _ _ (cleanInv_dotdotAppend h)
          · rw [if_neg h3]
            refine ih _ _ dotdot (cleanInv_write h (c :: rest.takeWhile (· ≠ '/'))
              (by simp) ?_)
            intro x hx
            rcases List.mem_cons.mp hx with rfl | hx'
            · exact h1
            · have := List.mem_takeWhile_imp hx'
              simpa using this

/-- The cleaned path never contains two adjacent separators. -/
lemma goPathClean_chain' (p : String) : (goPathClean p).data.Chain' SlashSep := by
  unfold goPathClean
  by_cases hp : p = ""
  · rw [if_pos hp]
    exact List.chain'_singleton '.'
  · rw [if_neg hp]
    have hinit : CleanInv (decide (p.data.head? = some '/'))
        (if decide (p.data.head? = some '/') then ['/'] else [])
        (if decide (p.data.head? = some '/') then 1 else 0) := by
      by_cases hr : p.data.head? = some '/'
      · simp only [decide_eq_true hr, if_true]
        exact ⟨List.chain'_singleton '/', fun _ => ⟨rfl, rfl⟩,
          fun _ => ⟨rfl, rfl⟩, fun hcon => by simp at hcon⟩
      · simp only [decide_eq_false hr, if_false]
        refine ⟨List.chain'_nil, fun hcon => by simp at hcon,
          fun hcon => by simp at hcon, fun _ => Or.inl rfl⟩
    obtain ⟨dd, hinv⟩ :=
      cleanInv_cleanCore (decide (p.data.head? = some '/')) p.data.length p.data
        (if decide (p.data.head? = some '/') then ['/'] else [])
        (if decide (p.data.head? = some '/') then 1 else 0) hinit
    set out := cleanCore (decide (p.data.head? = some '/')) p.data.length p.data
      (if decide (p.data.head? = some '/') then ['/'] else [])
      (if decide (p.data.head? = some '/') then 1 else 0) with hout
    by_cases hz : out.length = 0
    · rw [if_pos hz]
      exact List.chain'_singleton '.'
    · rw [if_neg hz]
      show out.reverse.Chain' SlashSep
      rw [List.chain'_reverse, slashSep_flip]
      exact hinv.1

/-- `cleanPath` output never contains two adjacent separators. -/
lemma cleanPath_chain' (p : String) : (cleanPath p).data.Chain' SlashSep :=
  goPathClean_chain' _

/-! ## C9: URL normalization -/

/-- C9 counterexample: for the absolute href
`https://example.com/a/../b` — which has no fragment and no repeated
path separator, so fragment-stripping and slash-collapsing alone would
leave it untouched — `ResolveAndCleanURL` still rewrites the path to
`/b`; an absolute href does *not* pass through with its path otherwise
unchanged. -/
theorem c9_normalization_counterexample :
    c9Href.isAbs = true ∧
    c9Href.fragment = "" ∧
    replaceDoubleSlash c9Href.path.data = c9Href.path.data ∧
    (resolveAndCleanURL c9Base c9Href).path = "/b" ∧
    (resolveAndCleanURL c9Base c9Href).path ≠ c9Href.path :=
  ⟨by decide, by decide, by decide, by decide, by decide⟩

/-- C9 (amended): the result never carries a fragment; a relative href
is resolved against the base URL; an absolute href keeps its scheme,
host and query and only has its fragment stripped and its path put
through `cleanPath` — which collapses repeated separators and resolves
dot segments by standard path cleaning (so the path of an absolute
href is not in general otherwise unchanged); the repo's own test table
is reproduced exactly. -/
theorem c9_url_normalization :
    (∀ base h : URL, (resolveAndCleanURL base h).fragment = "")
    ∧ (∀ base h : URL, h.isAbs = true →
        resolveAndCleanURL base h = { h with fragment := "", path := cleanPath h.path })
    ∧ (∀ base h : URL, h.isAbs = false →
        resolveAndCleanURL base h =
          { resolveReference base h with
              fragment := "", path := cleanPath (resolveReference base h).path })
    ∧ (∀ base h : URL, (resolveAndCleanURL base h).path.data.Chain' SlashSep)
    ∧ (URL.render (resolveAndCleanURL c9Base ⟨"https", "example.com", "/foo//bar", "", "section"⟩)
        = "https://example.com/foo/bar"
      ∧ URL.render (resolveAndCleanURL c9Base ⟨"", "", "../foo//bar", "x=1", "section"⟩)
        = "https://example.com/base/foo/bar?x=1"
      ∧ URL.render (resolveAndCleanURL c9Base ⟨"", "", "./../baz/./qux", "", ""⟩)
        = "https://example.com/base/baz/qux"
      ∧ URL.render (resolveAndCleanURL c9Base ⟨"", "", "/foo//bar/../baz", "", "frag"⟩)
        = "https://example.com/foo/baz"
      ∧ URL.render (resolveAndCleanURL c9Base ⟨"", "", "", "", "frag"⟩)
        = "https://example.com/base/path"
      ∧ URL.render (resolveAndCleanURL c9Base ⟨"", "", "", "a=1&b=2", ""⟩)
        = "https://example.com/base/path?a=1&b=2"
      ∧ URL.render (resolveAndCleanURL c9Base ⟨"", "", "foo////bar", "", ""⟩)
        = "https://example.com/base/path/foo/bar") := by
  refine ⟨?_, ?_, ?_, ?_,
    by decide, by decide, by decide, by decide, by decide, by decide, by decide⟩
  · intro base h
    rfl
  · intro base h hab
    simp only [resolveAndCleanURL, hab, if_true]
  · intro base h hab
    simp only [resolveAndCleanURL, hab, Bool.false_eq_true, if_false]
  · intro base h
    exact cleanPath_chain' _

/-- Witness for C9 at a concrete absolute and a concrete relative
href. -/
theorem c9_witness :
    (URL.isAbs ⟨"https", "example.com", "/foo//bar", "", "section"⟩ = true ∧
      resolveAndCleanURL c9Base ⟨"https", "example.com", "/foo//bar", "", "section"⟩
        = { URL.mk "https" "example.com" "/foo//bar" "" "section" with
              fragment := "", path := cleanPath "/foo//bar" }) ∧
    (URL.isAbs ⟨"", "", "../foo//bar", "x=1", "section"⟩ = false ∧
      resolveAndCleanURL c9Base ⟨"", "", "../foo//bar", "x=1", "section"⟩
        = { resolveReference c9Base ⟨"", "", "../foo//bar", "x=1", "section"⟩ with
              fragment := "",
              path := cleanPath
                (resolveReference c9Base ⟨"", "", "../foo//bar", "x=1", "section"⟩).path }) :=
  ⟨⟨by decide,
    c9_url_normalization.2.1 c9Base ⟨"https", "example.com", "/foo//bar", "", "section"⟩
      (by decide)⟩,
   ⟨by decide,
    c9_url_normalization.2.2.1 c9Base ⟨"", "", "../foo//bar", "x=1", "section"⟩
      (by decide)⟩⟩

end GoScraper
